import Mathlib

/-!
Shallow embedding of the core pipeline of `api_sw.py`: link flattening and
ranking (`flatten_videos`, `pick_best`), embedded-data extraction
(`extract_videos_dict`), the video-links endpoint (`get_episode_videos`),
catalog crawling (`fetch_catalog_page`, `crawl_catalog`), and the catalog
cache (`_load_catalog_from_disk`, `_save_catalog_to_disk`,
`get_cached_catalog`, `get_slug_set`).

Python strings are modelled as Lean `String`; the handful of string methods
the code uses (`str.lower`, `str.replace`, `str.strip`, `str.isdigit`) are
given explicit character-level definitions restricted to the ASCII range the
code exercises.  Network I/O, regular-expression matching, JSON parsing and
HTML entity decoding are parameters (oracles) of the functions that use them,
so every theorem quantifies over their possible behaviours.  Python floats
(timestamps) are modelled as integers: only ordering and subtraction of
timestamps occur in the code.
-/

namespace ApiSw

/-! ### Python string primitives -/

/-- `str.lower` on one ASCII character. -/
def pyLowerChar (c : Char) : Char :=
  if 'A' ≤ c ∧ c ≤ 'Z' then Char.ofNat (c.toNat + 32) else c

/-- `str.lower` (ASCII fragment). -/
def pyLower (s : String) : String := ⟨s.data.map pyLowerChar⟩

/-- `.replace("\\/", "/")`: Python replaces non-overlapping occurrences left
to right; for this two-character pattern that is the following recursion. -/
def replaceSlashAux : List Char → List Char
  | [] => []
  | '\\' :: '/' :: rest => '/' :: replaceSlashAux rest
  | c :: rest => c :: replaceSlashAux rest

/-- `.replace("\\/", "/")` on a string. -/
def unescapeSlashes (s : String) : String := ⟨replaceSlashAux s.data⟩

/-- `.replace("\n", " ").replace("\r", " ")`: both patterns and the
replacement are single characters, so the two passes are one character map. -/
def cleanNl (s : String) : String :=
  ⟨s.data.map (fun c => if c = '\n' ∨ c = '\r' then ' ' else c)⟩

/-- The whitespace characters `str.strip` removes (ASCII fragment). -/
def isPySpace (c : Char) : Bool :=
  c = ' ' ∨ c = '\t' ∨ c = '\n' ∨ c = '\r' ∨ c = '\x0b' ∨ c = '\x0c'

/-- `str.strip()` (ASCII fragment). -/
def pyStrip (s : String) : String :=
  ⟨((s.data.dropWhile isPySpace).reverse.dropWhile isPySpace).reverse⟩

/-- `str.isdigit()`: true iff the string is non-empty and all characters are
digits (ASCII fragment). -/
def pyIsDigit (s : String) : Bool :=
  !s.data.isEmpty && s.data.all Char.isDigit

/-- Python truthiness of an `Optional[str]`: `None` and `""` are falsy. -/
def pyTruthy : Option String → Bool
  | none => false
  | some s => s ≠ ""

/-- `x or ""` for `x : Optional[str]` (`None` and `""` both give `""`). -/
def orEmpty : Option String → String
  | none => ""
  | some s => s

/-! ### Data model: raw videos dict and `VideoItem` -/

/-- The two fixed track keys of the embedded `videos` dict. -/
inductive Track where
  | SUB
  | LAT
deriving DecidableEq, Repr

/-- One element of a track list inside the raw `videos` dict.  The code reads
the four keys with `.get`, so each is optional; values are modelled as the
strings the upstream pages carry. -/
structure RawItem where
  server : Option String
  title : Option String
  code : Option String
  url : Option String
deriving DecidableEq, Repr

/-- The raw `videos` dict.  `flatten_videos` only reads the keys `"SUB"` and
`"LAT"` and skips a value that is not a list (`isinstance(items, list)`);
`none` models both an absent key and a non-list value. -/
structure RawVideos where
  SUB : Option (List RawItem)
  LAT : Option (List RawItem)
deriving DecidableEq, Repr

/-- `videos.get(track)` for the two fixed track keys. -/
def trackGet (v : RawVideos) : Track → Option (List RawItem)
  | Track.SUB => v.SUB
  | Track.LAT => v.LAT

/-- The `VideoItem` pydantic model: `server` is a plain string, the other
three fields are optional. -/
structure VideoItem where
  track : Track
  server : String
  title : Option String
  code : Option String
  url : Option String
deriving DecidableEq, Repr

/-- The record built for one raw element in `flatten_videos`:
`server=(it.get("server") or "").lower()`, `title=it.get("title")`,
`code=(it.get("code") or "").replace("\\/", "/") or None`, and the same for
`url`. -/
def mkVideoItem (track : Track) (it : RawItem) : VideoItem :=
  { track := track
    server := pyLower (orEmpty it.server)
    title := it.title
    code := (fun s => if s = "" then none else some s) (unescapeSlashes (orEmpty it.code))
    url := (fun s => if s = "" then none else some s) (unescapeSlashes (orEmpty it.url)) }

/-- `flatten_videos`: iterate the two track keys in order, skip non-lists,
append one `VideoItem` per element. -/
def flatten_videos (videos : RawVideos) : List VideoItem :=
  [Track.SUB, Track.LAT].foldl
    (fun out track =>
      match trackGet videos track with
      | none => out
      | some items => out ++ items.map (mkVideoItem track))
    []

/-! ### Ranking: `PREFERRED`, `pref_index`, `pick_best` -/

/-- The fixed host-preference list. -/
def PREFERRED : List String :=
  ["sw", "streamwish", "sb", "streamsb", "sbplay", "stape", "okru", "uqload", "mega"]

/-- `pref_index`: position of the lowercased server name in `PREFERRED`,
or `len(PREFERRED) + 10` when not found. -/
def pref_index (server : String) : Nat :=
  match PREFERRED.findIdx? (fun name => pyLower (orEmpty (some server)) == name) with
  | some i => i
  | none => PREFERRED.length + 10

/-- The sort key of `pick_best`:
`(pref_index(it.server), 0 if it.code else 1)` — note the Python truthiness
of `it.code`, under which `Some ""` counts like `None`. -/
def sort_key (it : VideoItem) : Nat × Nat :=
  (pref_index it.server, if pyTruthy it.code then 0 else 1)

/-- Lexicographic `≤` on the sort keys. -/
def keyLe (a b : Nat × Nat) : Bool :=
  a.1 < b.1 || (a.1 = b.1 && a.2 ≤ b.2)

/-- Lexicographic `<` on the sort keys. -/
def keyLt (a b : Nat × Nat) : Bool :=
  a.1 < b.1 || (a.1 = b.1 && a.2 < b.2)

/-- Stable insertion of one element into an already key-sorted list: the new
element goes before the first strictly-or-equally larger element, i.e. after
every earlier element of equal key.  Stable sorting with respect to a total
preorder has a unique result, so this insertion sort computes exactly what
Python's stable `sorted(items, key=...)` computes. -/
def insertByKey (x : VideoItem) : List VideoItem → List VideoItem
  | [] => [x]
  | y :: ys => if keyLe (sort_key x) (sort_key y) then x :: y :: ys else y :: insertByKey x ys

/-- `sorted(items, key=lambda it: (pref_index(it.server), 0 if it.code else 1))`. -/
def sortByKey : List VideoItem → List VideoItem
  | [] => []
  | x :: xs => insertByKey x (sortByKey xs)

/-- `pick_best`: head of the stably sorted list, `None` on an empty list. -/
def pick_best (items : List VideoItem) : Option VideoItem :=
  (sortByKey items).head?

/-- The first element of the list attaining the minimal sort key (helper
used to state the stable tie-break of `pick_best`). -/
def firstMinBy : List VideoItem → Option VideoItem
  | [] => none
  | x :: xs =>
    match firstMinBy xs with
    | none => some x
    | some m => if keyLt (sort_key m) (sort_key x) then some m else some x

/-! ### Embedded-data extraction -/

/-- `extract_videos_dict`: the `VIDEOS_RE` search is the oracle `capture`
(returning the `{...}` capture group, if the pattern matches), `html.unescape`
is the oracle `unescape`, and `json.loads` is the oracle `loads`.  On a
missing block the function fails immediately; otherwise it parses the
unescaped capture, and on a strict-parse failure it retries exactly once on
the newline-collapsed text, propagating that second outcome. -/
def extract_videos_dict (capture : String → Option String) (unescape : String → String)
    (loads : String → Except String RawVideos) (page_html : String) :
    Except String RawVideos :=
  match capture page_html with
  | none => .error "No encontré \x27var videos = \x7b...\x7d;\x27 en la página."
  | some g =>
    let raw_json := unescape g
    match loads raw_json with
    | .ok v => .ok v
    | .error _ => loads (cleanNl raw_json)

/-- The three scalar identifiers of `extract_ids`. -/
structure ExtractedIds where
  anime_id : Option String
  episode_id : Option String
  episode_number : Option String
deriving DecidableEq, Repr

/-- `extract_ids`: each identifier comes from an independent regex search
(oracle), a missing match yielding `None`. -/
def extract_ids (animeRx episodeRx epnumRx : String → Option String)
    (page_html : String) : ExtractedIds :=
  { anime_id := animeRx page_html
    episode_id := episodeRx page_html
    episode_number := epnumRx page_html }

/-! ### The video-links endpoint -/

/-- An `HTTPException`: status code and detail message. -/
structure ApiError where
  status : Nat
  detail : String
deriving DecidableEq, Repr

/-- The `VideosResponse` pydantic model. -/
structure VideosResponse where
  page_url : String
  anime_id : Option String
  episode_id : Option String
  episode_number : Option String
  items : List VideoItem
deriving DecidableEq, Repr

/-- The detail of the 400 raised for an all-digit `anime_id`. -/
def invalidAnimeIdDetail : String :=
  "anime_id inválido. Debe ser el slug devuelto por /search (ej: \x27dragon-ball-daima\x27)."

/-- `get_episode_videos` (the `/anime/{anime_id}/episode/{episode_id}/videos`
handler).  `pageFetch` models `fetch_episode_html` (network); `capture`,
`unescape`, `loads` feed `extract_videos_dict`; the three regex oracles feed
`extract_ids`.  Oracle failures are the exceptions the generic handler wraps
into a 502.  The digit check runs before any oracle is consulted. -/
def get_episode_videos
    (pageFetch : String → Nat → Except String (String × String))
    (capture : String → Option String) (unescape : String → String)
    (loads : String → Except String RawVideos)
    (animeRx episodeRx epnumRx : String → Option String)
    (anime_id : String) (episode_id : Nat)
    (only : Option String) (prefer_best : Bool) : Except ApiError VideosResponse :=
  if pyIsDigit anime_id then
    .error ⟨400, invalidAnimeIdDetail⟩
  else
    match pageFetch anime_id episode_id with
    | .error e => .error ⟨502, "No se pudieron obtener los enlaces: " ++ e⟩
    | .ok (page_html, page_url) =>
      match extract_videos_dict capture unescape loads page_html with
      | .error e => .error ⟨502, "No se pudieron obtener los enlaces: " ++ e⟩
      | .ok videos =>
        let ids := extract_ids animeRx episodeRx epnumRx page_html
        let items0 := flatten_videos videos
        if items0 = [] then
          .error ⟨502, "No se encontraron enlaces en \x27var videos\x27."⟩
        else
          let filtered : Except ApiError (List VideoItem) :=
            if pyTruthy only then
              let k := pyLower (pyStrip (orEmpty only))
              let items1 := items0.filter (fun it => it.server == k)
              if items1 = [] then
                .error ⟨404, "No hay enlaces para el servidor \x27" ++ orEmpty only ++ "\x27."⟩
              else .ok items1
            else .ok items0
          match filtered with
          | .error e => .error e
          | .ok items1 =>
            let items2 :=
              if prefer_best then
                match pick_best items1 with
                | some best => [best]
                | none => items1
              else items1
            .ok ⟨page_url, ids.anime_id, ids.episode_id, ids.episode_number, items2⟩

/-! ### Catalog crawling -/

/-- One catalog entry, the dict `{"id": slug, "title": title}` built by
`crawl_catalog`. -/
structure CatEntry where
  id : String
  title : String
deriving DecidableEq, Repr

/-- `"/browse?order=title&page={page}"` with the page number formatted in. -/
def browsePath (page : Nat) : String := "/browse?order=title&page=" ++ toString page

/-- The URL tried for one base host and page. -/
def browseUrl (base : String) (page : Nat) : String := base ++ browsePath page

/-- How Python formats `last_err` (possibly `None`) into the f-string. -/
def pyFormatExc : Option String → String
  | none => "None"
  | some e => e

/-- The host-fallback loop of `fetch_catalog_page`, carrying `last_err`:
try each base in order, return the first successful page's stripped and
entity-decoded `(slug, title)` pairs, and raise carrying the last error when
every base fails.  `httpGet` models `http_get` (network), `findall` the
`CAT_ITEM_RE.findall` matches on the fetched text. -/
def fetchPageLoop (httpGet : String → Except String String)
    (findall : String → List (String × String)) (unescape : String → String)
    (page : Nat) : List String → Option String → Except String (List (String × String))
  | [], last_err =>
    .error ("No se pudo cargar browse page=" ++ toString page ++ ". Último error: "
      ++ pyFormatExc last_err)
  | b :: rest, _ =>
    match httpGet (browseUrl b page) with
    | .ok text => .ok ((findall text).map (fun st => (pyStrip st.1, pyStrip (unescape st.2))))
    | .error e => fetchPageLoop httpGet findall unescape page rest (some e)

/-- `fetch_catalog_page(page, base)`: `bases = [base] if base else
BASE_CANDIDATES`, then the fallback loop with `last_err = None`. -/
def fetch_catalog_page (httpGet : String → Except String String)
    (findall : String → List (String × String)) (unescape : String → String)
    (base_candidates : List String) (page : Nat) (base : Option String) :
    Except String (List (String × String)) :=
  let bases := match base with | some b => [b] | none => base_candidates
  fetchPageLoop httpGet findall unescape page bases none

/-- The inner for-loop of `crawl_catalog` over one page's `(slug, title)`
pairs: returns the updated `seen` set (modelled as a list), the updated
output, and `added`, the number of entries appended. -/
def processPage (seen : List String) (out : List CatEntry) :
    List (String × String) → List String × List CatEntry × Nat
  | [] => (seen, out, 0)
  | (slug, title) :: rest =>
    if slug ≠ "" ∧ slug ∉ seen then
      let r := processPage (slug :: seen) (out ++ [⟨slug, title⟩]) rest
      (r.1, r.2.1, r.2.2 + 1)
    else processPage seen out rest

/-- The page loop of `crawl_catalog`: `fuel` counts the remaining iterations
of `range(start_page, start_page + max_pages)`.  An empty page, or a page
adding nothing new, ends the crawl; a fetch failure propagates (the
`sleep_sec` pause has no observable effect and is omitted). -/
def crawlLoop (fetch : Nat → Except String (List (String × String))) :
    Nat → Nat → List String → List CatEntry → Except String (List CatEntry)
  | _, 0, _, out => .ok out
  | p, fuel + 1, seen, out =>
    match fetch p with
    | .error e => .error e
    | .ok items =>
      if items = [] then .ok out
      else
        let r := processPage seen out items
        if r.2.2 = 0 then .ok r.2.1
        else crawlLoop fetch (p + 1) fuel r.1 r.2.1

/-- `crawl_catalog(start_page, max_pages)`, over an abstract per-page fetch
(in the source, `fetch_catalog_page` with its default base candidates). -/
def crawl_catalog (fetch : Nat → Except String (List (String × String)))
    (start_page max_pages : Nat) : Except String (List CatEntry) :=
  crawlLoop fetch start_page max_pages [] []

/-- Keep the first occurrence of each non-empty identifier, in order (the
first-seen filter `crawl_catalog` applies to the concatenated page stream). -/
def dedupFirstAux (seen : List String) : List (String × String) → List CatEntry
  | [] => []
  | (slug, title) :: rest =>
    if slug ≠ "" ∧ slug ∉ seen then ⟨slug, title⟩ :: dedupFirstAux (slug :: seen) rest
    else dedupFirstAux seen rest

/-- `dedupFirstAux` starting from an empty seen-set. -/
def dedupFirst (pairs : List (String × String)) : List CatEntry := dedupFirstAux [] pairs

/-! ### Durable snapshot (JSON) -/

/-- JSON values (numbers restricted to integers; the snapshot format only
carries strings, arrays and objects). -/
inductive Json where
  | null
  | bool (b : Bool)
  | num (n : Int)
  | str (s : String)
  | arr (elems : List Json)
  | obj (kvs : List (String × Json))

/-- `isinstance(x, dict) and "id" in x and "title" in x`. -/
def isDictWithIdTitle : Json → Bool
  | .obj kvs => (kvs.any (fun kv => kv.1 == "id")) && (kvs.any (fun kv => kv.1 == "title"))
  | _ => false

/-- `_load_catalog_from_disk`: `none` models a missing/unreadable/unparsable
file (and an unset path), which yields `[]`; a parsed non-list also yields
`[]`; a parsed list is filtered to the dicts carrying `"id"` and `"title"`. -/
def _load_catalog_from_disk (file : Option Json) : List Json :=
  match file with
  | some (.arr data) => data.filter isDictWithIdTitle
  | _ => []

/-- The JSON object `json.dump` writes for one crawl entry. -/
def entryJson (e : CatEntry) : Json := .obj [("id", .str e.id), ("title", .str e.title)]

/-- `_save_catalog_to_disk`: the file contents written for a crawl result. -/
def _save_catalog_to_disk (items : List CatEntry) : Json := .arr (items.map entryJson)

/-- The `(id, title)` pair readable from a loaded JSON dict (`x["id"]`,
`x["title"]` as the endpoints read them). -/
def jsonPair (x : Json) : Option Json × Option Json :=
  match x with
  | .obj kvs => ((kvs.lookup "id"), (kvs.lookup "title"))
  | _ => (none, none)

/-! ### Catalog cache -/

/-- The module-level cache: `CATALOG_CACHE` and `CATALOG_CACHE_TS`.  The
entry type is a parameter because the Python list is untyped: the crawler
stores `CatEntry`-shaped dicts, a disk load stores whatever passed the load
filter. -/
structure CacheState (α : Type) where
  cache : List α
  ts : Int
deriving DecidableEq, Repr

/-- The outcome of one `get_cached_catalog` call: the returned list, the new
module state, and whether the snapshot file was (re)written. -/
structure CacheResult (α : Type) where
  result : List α
  state : CacheState α
  wroteDisk : Bool
deriving DecidableEq, Repr

/-- `get_cached_catalog(force_refresh)`.  `crawlResult` is what
`crawl_catalog` would return if invoked; `diskItems` is what
`_load_catalog_from_disk` would return if invoked; `now` is `time.time()`. -/
def get_cached_catalog {α : Type} (crawlResult diskItems : List α) (ttl now : Int)
    (force_refresh : Bool) (st : CacheState α) : CacheResult α :=
  if !force_refresh && !st.cache.isEmpty && decide (now - st.ts < ttl) then
    ⟨st.cache, st, false⟩
  else if !force_refresh && st.cache.isEmpty && !diskItems.isEmpty then
    ⟨diskItems, ⟨diskItems, now⟩, false⟩
  else
    ⟨crawlResult, ⟨crawlResult, now⟩, true⟩

/-- The set built by `get_slug_set`'s body: `set(x["id"] for x in ...)`. -/
def idSet (entries : List CatEntry) : Finset String := (entries.map CatEntry.id).toFinset

/-- Process-wide state relevant to the slug-set view: the catalog cache plus
the `lru_cache(maxsize=1)` memo of `get_slug_set` (a zero-argument function,
so the memo is just an optional stored result). -/
structure AppState where
  cacheState : CacheState CatEntry
  slugMemo : Option (Finset String)
deriving DecidableEq

/-- `get_slug_set()`: on a hit the memoized set is returned and nothing runs;
on a miss the body runs (`get_cached_catalog(force_refresh=False)`) and its
result is memoized. -/
def get_slug_set (crawlResult diskItems : List CatEntry) (ttl now : Int)
    (st : AppState) : Finset String × AppState :=
  match st.slugMemo with
  | some s => (s, st)
  | none =>
    let r := get_cached_catalog crawlResult diskItems ttl now false st.cacheState
    (idSet r.result, ⟨r.state, some (idSet r.result)⟩)

/-- A call to `get_cached_catalog` made by any other endpoint (e.g. a forced
refresh through `/catalog?refresh=true`): it updates the module cache but has
no access to `get_slug_set`'s `lru_cache` storage. -/
def refresh_catalog (crawlResult diskItems : List CatEntry) (ttl now : Int)
    (force_refresh : Bool) (st : AppState) : List CatEntry × AppState :=
  let r := get_cached_catalog crawlResult diskItems ttl now force_refresh st.cacheState
  (r.result, ⟨r.state, st.slugMemo⟩)

/-! ### Auxiliary state functions used to state the crawl theorems -/

/-- The seen-set after `crawl_catalog`'s inner loop has consumed a list of
`(slug, title)` pairs (new slugs are consed on, mirroring `processPage`). -/
def seenAfter (seen : List String) : List (String × String) → List String
  | [] => seen
  | (slug, _) :: rest =>
    if slug ≠ "" ∧ slug ∉ seen then seenAfter (slug :: seen) rest
    else seenAfter seen rest

/-! ### Concrete inputs used by the witnesses -/

/-- A concrete input for the `pick_best` theorem: `"sw"` beats a preferred
earlier-listed host, and the hypotheses of `pick_best_correct` hold. -/
def demoItems : List VideoItem :=
  [⟨Track.SUB, "mega", none, some "m1", none⟩,
   ⟨Track.LAT, "sw", none, some "c7", none⟩,
   ⟨Track.SUB, "okru", none, none, none⟩]

/-- A raw element whose `title` is the empty string (and whose `server` is
absent): the claim predicts both become `null`, the code keeps them as
strings. -/
def c2Videos : RawVideos :=
  { SUB := some [{ server := none, title := some "", code := some "a\\/b", url := some "" }]
    LAT := none }

/-- A small raw videos dict exercising the amended normalization claim. -/
def demoVideos : RawVideos :=
  { SUB := some [{ server := some "SW", title := some "t", code := some "ab\\/cd", url := some "" }]
    LAT := some [] }

/-- A concrete page sequence: page 1 carries a duplicate and an empty slug,
page 2 is empty (end of listing). -/
def demoPages : Nat → List (String × String)
  | 1 => [("a", "A"), ("", "X"), ("a", "A2"), ("b", "B")]
  | _ => []

/-- A page sequence whose first page is non-empty but yields only empty
identifiers. -/
def demoEmptySlugPages : Nat → List (String × String)
  | 1 => [("", "X"), ("", "Y")]
  | _ => [("c", "C")]

/-! ## Theorems -/

/-! ### C1: `pick_best` -/

theorem keyLe_rfl (a : Nat × Nat) : keyLe a a = true := by
  simp [keyLe]

theorem keyLe_trans {a b c : Nat × Nat} (h1 : keyLe a b = true) (h2 : keyLe b c = true) :
    keyLe a c = true := by
  simp only [keyLe, Bool.or_eq_true, Bool.and_eq_true, decide_eq_true_eq] at h1 h2 ⊢
  omega

theorem keyLe_of_keyLt {a b : Nat × Nat} (h : keyLt a b = true) : keyLe a b = true := by
  simp only [keyLe, keyLt, Bool.or_eq_true, Bool.and_eq_true, decide_eq_true_eq] at h ⊢
  omega

theorem keyLe_eq_false_of_keyLt {a b : Nat × Nat} (h : keyLt b a = true) :
    keyLe a b = false := by
  cases hle : keyLe a b with
  | false => rfl
  | true =>
    exfalso
    simp only [keyLt, Bool.or_eq_true, Bool.and_eq_true, decide_eq_true_eq] at h
    simp only [keyLe, Bool.or_eq_true, Bool.and_eq_true, decide_eq_true_eq] at hle
    omega

theorem keyLe_of_keyLt_eq_false {a b : Nat × Nat} (h : keyLt b a = false) :
    keyLe a b = true := by
  have h' : ¬ keyLt b a = true := by simp [h]
  simp only [keyLt, Bool.or_eq_true, Bool.and_eq_true, decide_eq_true_eq, not_or,
    not_and, Nat.not_lt] at h'
  obtain ⟨h1, h2⟩ := h'
  simp only [keyLe, Bool.or_eq_true, Bool.and_eq_true, decide_eq_true_eq]
  by_cases he : a.1 = b.1
  · exact Or.inr ⟨he, h2 he.symm⟩
  · exact Or.inl (by omega)

theorem head?_insertByKey (x : VideoItem) (l : List VideoItem) :
    (insertByKey x l).head? =
      match l.head? with
      | none => some x
      | some y => if keyLe (sort_key x) (sort_key y) then some x else some y := by
  cases l with
  | nil => rfl
  | cons y ys => cases h : keyLe (sort_key x) (sort_key y) <;> simp [insertByKey, h]

theorem pick_best_eq_firstMinBy (items : List VideoItem) :
    pick_best items = firstMinBy items := by
  induction items with
  | nil => rfl
  | cons x xs ih =>
    show (insertByKey x (sortByKey xs)).head? = _
    rw [head?_insertByKey]
    have hx : (sortByKey xs).head? = firstMinBy xs := ih
    rw [hx]
    cases hm : firstMinBy xs with
    | none => simp [firstMinBy, hm]
    | some m =>
      simp only [firstMinBy, hm]
      by_cases hlt : keyLt (sort_key m) (sort_key x) = true
      · rw [if_pos hlt, if_neg (by simp [keyLe_eq_false_of_keyLt hlt])]
      · rw [if_neg hlt,
          if_pos (keyLe_of_keyLt_eq_false (Bool.eq_false_iff.mpr hlt))]

theorem firstMinBy_eq_none_iff (l : List VideoItem) : firstMinBy l = none ↔ l = [] := by
  cases l with
  | nil => simp [firstMinBy]
  | cons x xs =>
    simp only [firstMinBy]
    cases hm : firstMinBy xs with
    | none => simp
    | some m =>
      simp only []
      cases hlt : keyLt (sort_key m) (sort_key x) <;> simp [hlt]

theorem firstMinBy_split {l : List VideoItem} {b : VideoItem} (h : firstMinBy l = some b) :
    ∃ l₁ l₂, l = l₁ ++ b :: l₂ ∧ ∀ a ∈ l₁, keyLt (sort_key b) (sort_key a) = true := by
  induction l with
  | nil => simp [firstMinBy] at h
  | cons x xs ih =>
    simp only [firstMinBy] at h
    cases hm : firstMinBy xs with
    | none =>
      rw [hm] at h
      simp only [Option.some.injEq] at h
      exact ⟨[], xs, by simp [h], by simp⟩
    | some m =>
      rw [hm] at h
      simp only [] at h
      by_cases hlt : keyLt (sort_key m) (sort_key x) = true
      · rw [if_pos hlt] at h
        injection h with h
        subst h
        obtain ⟨l₁, l₂, hsplit, hmin⟩ := ih hm
        refine ⟨x :: l₁, l₂, by simp [hsplit], ?_⟩
        intro a ha
        rcases List.mem_cons.mp ha with rfl | ha
        · exact hlt
        · exact hmin a ha
      · rw [if_neg hlt] at h
        injection h with h
        subst h
        exact ⟨[], xs, rfl, by simp⟩

theorem firstMinBy_min {l : List VideoItem} : ∀ {b : VideoItem}, firstMinBy l = some b →
    ∀ a ∈ l, keyLe (sort_key b) (sort_key a) = true := by
  induction l with
  | nil => intro b h; simp [firstMinBy] at h
  | cons x xs ih =>
    intro b h
    simp only [firstMinBy] at h
    cases hm : firstMinBy xs with
    | none =>
      rw [hm] at h
      simp only [Option.some.injEq] at h
      subst h
      intro a ha
      rcases List.mem_cons.mp ha with rfl | ha
      · exact keyLe_rfl _
      · exact absurd (firstMinBy_eq_none_iff xs |>.mp hm ▸ ha) (List.not_mem_nil a)
    | some m =>
      rw [hm] at h
      simp only [] at h
      by_cases hlt : keyLt (sort_key m) (sort_key x) = true
      · rw [if_pos hlt] at h
        injection h with h
        subst h
        intro a ha
        rcases List.mem_cons.mp ha with rfl | ha
        · exact keyLe_of_keyLt hlt
        · exact ih hm a ha
      · rw [if_neg hlt] at h
        injection h with h
        subst h
        intro a ha
        rcases List.mem_cons.mp ha with rfl | ha
        · exact keyLe_rfl _
        · have hxm : keyLe (sort_key x) (sort_key m) = true :=
            keyLe_of_keyLt_eq_false (Bool.eq_false_iff.mpr hlt)
          exact keyLe_trans hxm (ih hm _ ha)

theorem pref_index_eq_zero_iff (s : String) : pref_index s = 0 ↔ pyLower s = "sw" := by
  constructor
  · intro h
    by_cases hs : pyLower s = "sw"
    · exact hs
    · exfalso
      have hbeq : (pyLower (orEmpty (some s)) == "sw") = false := by
        simpa [orEmpty] using hs
      rw [pref_index, PREFERRED, List.findIdx?_cons, hbeq] at h
      simp only [Bool.false_eq_true, if_false] at h
      rw [show (0 + 1 : Nat) = 0 + 1 from rfl, List.findIdx?_succ] at h
      cases hrest : List.findIdx? (fun name => pyLower (orEmpty (some s)) == name)
          ["streamwish", "sb", "streamsb", "sbplay", "stape", "okru", "uqload", "mega"] with
      | none => rw [hrest] at h; simp at h
      | some i => rw [hrest] at h; simp at h
  · intro h
    rw [pref_index, PREFERRED, List.findIdx?_cons]
    have hbeq : (pyLower (orEmpty (some s)) == "sw") = true := by
      simpa [orEmpty] using h
    rw [hbeq]
    simp

/-- C1: `pick_best` returns `none` iff its input is empty, otherwise an
element of its input; when the input consists of data-model-conform
LinkRecords (hosts already lowercased, as `flatten_videos` produces them) and
contains a record with host exactly `"sw"`, the returned record has host
`"sw"`, whatever the input order; and in general the returned record is the
first element of the input attaining the minimal sort key `(pref_index
server, code truthiness)` — the stable-sort ordering of the source. -/
theorem pick_best_correct (items : List VideoItem) :
    (pick_best items = none ↔ items = []) ∧
    (∀ b, pick_best items = some b → b ∈ items) ∧
    ((∀ r ∈ items, pyLower r.server = r.server) →
      ∀ b, pick_best items = some b → (∃ r ∈ items, r.server = "sw") → b.server = "sw") ∧
    (∀ b, pick_best items = some b →
      (∀ a ∈ items, keyLe (sort_key b) (sort_key a) = true) ∧
      ∃ l₁ l₂, items = l₁ ++ b :: l₂ ∧ ∀ a ∈ l₁, keyLt (sort_key b) (sort_key a) = true) := by
  rw [pick_best_eq_firstMinBy]
  refine ⟨firstMinBy_eq_none_iff items, ?_, ?_, ?_⟩
  · intro b hb
    obtain ⟨l₁, l₂, hsplit, _⟩ := firstMinBy_split hb
    rw [hsplit]
    exact List.mem_append_right _ (List.mem_cons_self _ _)
  · intro hlow b hb ⟨r, hr, hrsw⟩
    have hmin := firstMinBy_min hb r hr
    have hbmem : b ∈ items := by
      obtain ⟨l₁, l₂, hsplit, _⟩ := firstMinBy_split hb
      rw [hsplit]
      exact List.mem_append_right _ (List.mem_cons_self _ _)
    have hr0 : pref_index r.server = 0 := by
      rw [pref_index_eq_zero_iff, hrsw]
      decide
    have hb0 : pref_index b.server = 0 := by
      simp only [keyLe, sort_key, hr0, Bool.or_eq_true, Bool.and_eq_true,
        decide_eq_true_eq] at hmin
      omega
    have := (pref_index_eq_zero_iff b.server).mp hb0
    rw [← hlow b hbmem]
    exact this
  · intro b hb
    exact ⟨firstMinBy_min hb, firstMinBy_split hb⟩

theorem pick_best_correct_witness :
    pick_best demoItems = some ⟨Track.LAT, "sw", none, some "c7", none⟩ ∧
    (⟨Track.LAT, "sw", none, some "c7", none⟩ : VideoItem).server = "sw" := by
  have hpick : pick_best demoItems = some ⟨Track.LAT, "sw", none, some "c7", none⟩ := by
    decide
  have hsw := (pick_best_correct demoItems).2.2.1 (by decide) _ hpick
    ⟨⟨Track.LAT, "sw", none, some "c7", none⟩, by decide, rfl⟩
  exact ⟨hpick, hsw⟩

/-! ### C2: `flatten_videos` normalization -/

/-- C2 counterexample: on `c2Videos` the flattened record stores the
empty-string `title` as `some ""`, not as `none` (and the absent `server`
as the empty string), refuting the claim that every empty-after-normalization
field — including `title` — is stored as null. -/
theorem flatten_videos_empty_title_kept :
    (flatten_videos c2Videos).map VideoItem.title = [some ""] ∧
    (flatten_videos c2Videos).map VideoItem.server = [""] ∧
    (some "" : Option String) ≠ none := by
  refine ⟨by decide, by decide, by decide⟩

/-- C2 (amended): each element of the lists under `SUB` and `LAT` becomes one
record with the host lowercased, escaped forward-slashes in `code` and `url`
unescaped, and `code`/`url` stored as `none` when empty after unescaping —
never as `some ""`; `title` is stored exactly as extracted (an empty-string
title stays `some ""`), and the host is `""` when the server field is absent
or empty. -/
theorem flatten_videos_normalization (v : RawVideos) :
    flatten_videos v =
      (v.SUB.getD []).map (mkVideoItem Track.SUB) ++
        (v.LAT.getD []).map (mkVideoItem Track.LAT) ∧
    ∀ it ∈ flatten_videos v, it.code ≠ some "" ∧ it.url ≠ some "" := by
  have hrep : flatten_videos v =
      (v.SUB.getD []).map (mkVideoItem Track.SUB) ++
        (v.LAT.getD []).map (mkVideoItem Track.LAT) := by
    cases hs : v.SUB <;> cases hl : v.LAT <;>
      simp [flatten_videos, trackGet, hs, hl, Option.getD]
  refine ⟨hrep, ?_⟩
  intro it hit
  rw [hrep] at hit
  have hmk : ∀ t (raw : RawItem), it = mkVideoItem t raw →
      it.code ≠ some "" ∧ it.url ≠ some "" := by
    intro t raw heq
    subst heq
    constructor
    · show (if unescapeSlashes (orEmpty raw.code) = "" then none
        else some (unescapeSlashes (orEmpty raw.code))) ≠ some ""
      split
      · simp
      · simp only [ne_eq, Option.some.injEq]
        intro hcontra
        simp_all
    · show (if unescapeSlashes (orEmpty raw.url) = "" then none
        else some (unescapeSlashes (orEmpty raw.url))) ≠ some ""
      split
      · simp
      · simp only [ne_eq, Option.some.injEq]
        intro hcontra
        simp_all
  rcases List.mem_append.mp hit with hm | hm <;>
    obtain ⟨raw, _, hraw⟩ := List.mem_map.mp hm
  · exact hmk Track.SUB raw hraw.symm
  · exact hmk Track.LAT raw hraw.symm

theorem flatten_videos_normalization_witness :
    flatten_videos demoVideos =
      (demoVideos.SUB.getD []).map (mkVideoItem Track.SUB) ++
        (demoVideos.LAT.getD []).map (mkVideoItem Track.LAT) ∧
    (⟨Track.SUB, "sw", some "t", some "ab/cd", none⟩ : VideoItem).code ≠ some "" := by
  have h := flatten_videos_normalization demoVideos
  exact ⟨h.1, (h.2 ⟨Track.SUB, "sw", some "t", some "ab/cd", none⟩ (by decide)).1⟩

/-! ### C3, C10, C8: `crawl_catalog` -/

theorem processPage_spec (items : List (String × String)) :
    ∀ seen out, processPage seen out items =
      (seenAfter seen items, out ++ dedupFirstAux seen items,
        (dedupFirstAux seen items).length) := by
  induction items with
  | nil => intro seen out; simp [processPage, seenAfter, dedupFirstAux]
  | cons p rest ih =>
    intro seen out
    obtain ⟨slug, title⟩ := p
    by_cases hc : slug ≠ "" ∧ slug ∉ seen
    · simp only [processPage, dedupFirstAux, seenAfter, if_pos hc, ih]
      simp
    · simp only [processPage, dedupFirstAux, seenAfter, if_neg hc, ih]

theorem dedupFirstAux_append (l₁ l₂ : List (String × String)) :
    ∀ seen, dedupFirstAux seen (l₁ ++ l₂) =
      dedupFirstAux seen l₁ ++ dedupFirstAux (seenAfter seen l₁) l₂ := by
  induction l₁ with
  | nil => intro seen; simp [dedupFirstAux, seenAfter]
  | cons p rest ih =>
    intro seen
    obtain ⟨slug, title⟩ := p
    by_cases hc : slug ≠ "" ∧ slug ∉ seen
    · simp [dedupFirstAux, seenAfter, if_pos hc, ih]
    · simp [dedupFirstAux, seenAfter, if_neg hc, ih]

theorem dedupFirstAux_ids (pairs : List (String × String)) :
    ∀ seen, ((dedupFirstAux seen pairs).map CatEntry.id).Nodup ∧
      ∀ e ∈ dedupFirstAux seen pairs, e.id ∉ seen ∧ e.id ≠ "" := by
  induction pairs with
  | nil => intro seen; simp [dedupFirstAux]
  | cons p rest ih =>
    intro seen
    obtain ⟨slug, title⟩ := p
    by_cases hc : slug ≠ "" ∧ slug ∉ seen
    · simp only [dedupFirstAux, if_pos hc]
      obtain ⟨ihn, ihm⟩ := ih (slug :: seen)
      refine ⟨?_, ?_⟩
      · simp only [List.map_cons, List.nodup_cons]
        refine ⟨?_, ihn⟩
        intro hmem
        obtain ⟨e, he, heid⟩ := List.mem_map.mp hmem
        exact (ihm e he).1 (by rw [heid]; exact List.mem_cons_self _ _)
      · intro e he
        rcases List.mem_cons.mp he with rfl | he
        · exact ⟨hc.2, hc.1⟩
        · obtain ⟨h1, h2⟩ := ihm e he
          exact ⟨fun hmem => h1 (List.mem_cons_of_mem _ hmem), h2⟩
    · simp only [dedupFirstAux, if_neg hc]
      exact ih seen

theorem dedupFirstAux_all_empty {l : List (String × String)} (h : ∀ pr ∈ l, pr.1 = "") :
    ∀ seen, dedupFirstAux seen l = [] := by
  induction l with
  | nil => intro seen; rfl
  | cons p rest ih =>
    intro seen
    obtain ⟨slug, title⟩ := p
    have hslug : slug = "" := h (slug, title) (List.mem_cons_self _ _)
    rw [dedupFirstAux, if_neg (by simp [hslug])]
    exact ih (fun pr hpr => h pr (List.mem_cons_of_mem _ hpr)) seen

theorem crawlLoop_ok_rep (pageSeq : Nat → List (String × String)) :
    ∀ (fuel p : Nat) (seen : List String) (out res : List CatEntry),
      crawlLoop (fun q => .ok (pageSeq q)) p fuel seen out = .ok res →
      ∃ n, n ≤ fuel ∧
        res = out ++ dedupFirstAux seen (((List.range' p n).map pageSeq).flatten) := by
  intro fuel
  induction fuel with
  | zero =>
    intro p seen out res h
    simp only [crawlLoop] at h
    injection h with h
    exact ⟨0, Nat.le_refl 0, by simp [dedupFirstAux, h]⟩
  | succ fuel ih =>
    intro p seen out res h
    simp only [crawlLoop] at h
    by_cases hempty : pageSeq p = []
    · rw [if_pos hempty] at h
      injection h with h
      exact ⟨0, Nat.zero_le _, by simp [dedupFirstAux, h]⟩
    · rw [if_neg hempty, processPage_spec] at h
      simp only [] at h
      by_cases hadd : (dedupFirstAux seen (pageSeq p)).length = 0
      · rw [if_pos hadd] at h
        injection h with h
        refine ⟨1, Nat.one_le_iff_ne_zero.mpr (Nat.succ_ne_zero _), ?_⟩
        rw [← h]
        simp [List.range'_one]
      · rw [if_neg hadd] at h
        obtain ⟨n, hn, hres⟩ := ih (p + 1) _ _ res h
        refine ⟨n + 1, Nat.succ_le_succ hn, ?_⟩
        rw [hres, List.range'_succ, List.map_cons, List.flatten_cons,
          dedupFirstAux_append]
        simp [List.append_assoc]

/-- C3: for every sequence of fetched listing pages, a successful crawl
returns no two entries with the same identifier, and the returned list is
exactly the first-seen filter of the concatenated page stream of the pages
actually consumed — so an identifier's entry carries the title of its first
occurrence and later occurrences are ignored. -/
theorem crawl_catalog_first_seen (pageSeq : Nat → List (String × String))
    (start_page max_pages : Nat) (res : List CatEntry)
    (h : crawl_catalog (fun p => .ok (pageSeq p)) start_page max_pages = .ok res) :
    (res.map CatEntry.id).Nodup ∧
    ∃ n, n ≤ max_pages ∧
      res = dedupFirst (((List.range' start_page n).map pageSeq).flatten) := by
  obtain ⟨n, hn, hres⟩ := crawlLoop_ok_rep pageSeq max_pages start_page [] [] res h
  simp only [List.nil_append] at hres
  refine ⟨?_, n, hn, hres⟩
  rw [hres]
  exact (dedupFirstAux_ids _ []).1

theorem crawl_catalog_first_seen_witness :
    ((([⟨"a", "A"⟩, ⟨"b", "B"⟩] : List CatEntry).map CatEntry.id).Nodup) ∧
    ∃ n, n ≤ 3 ∧ ([⟨"a", "A"⟩, ⟨"b", "B"⟩] : List CatEntry) =
      dedupFirst (((List.range' 1 n).map demoPages).flatten) :=
  crawl_catalog_first_seen demoPages 1 3 [⟨"a", "A"⟩, ⟨"b", "B"⟩] (by rfl)

/-- C10: every entry of a successful crawl has a non-empty identifier —
pairs with an empty identifier are dropped — and a page consisting solely of
empty-identifier pairs still counts as unproductive: it ends the crawl
(here: a first page of only empty identifiers makes the whole crawl return
`[]`, even though later pages carry entries). -/
theorem crawl_catalog_drops_empty_ids :
    (∀ (pageSeq : Nat → List (String × String)) (start_page max_pages : Nat)
       (res : List CatEntry),
       crawl_catalog (fun p => .ok (pageSeq p)) start_page max_pages = .ok res →
       ∀ e ∈ res, e.id ≠ "") ∧
    (∀ (pageSeq : Nat → List (String × String)) (start_page max_pages : Nat),
       pageSeq start_page ≠ [] → (∀ pr ∈ pageSeq start_page, pr.1 = "") →
       crawl_catalog (fun p => .ok (pageSeq p)) start_page max_pages = .ok []) := by
  constructor
  · intro pageSeq start_page max_pages res h e he
    obtain ⟨n, hn, hres⟩ := crawlLoop_ok_rep pageSeq max_pages start_page [] [] res h
    simp only [List.nil_append] at hres
    rw [hres] at he
    exact ((dedupFirstAux_ids _ []).2 e he).2
  · intro pageSeq start_page max_pages hne hall
    cases max_pages with
    | zero => rfl
    | succ fuel =>
      have hdd : dedupFirstAux [] (pageSeq start_page) = [] :=
        dedupFirstAux_all_empty hall []
      show crawlLoop _ start_page (fuel + 1) [] [] = .ok []
      simp only [crawlLoop]
      rw [if_neg hne, processPage_spec]
      simp [hdd]

theorem crawl_catalog_drops_empty_ids_witness :
    (⟨"a", "A"⟩ : CatEntry).id ≠ "" ∧
    crawl_catalog (fun p => .ok (demoEmptySlugPages p)) 1 5 = .ok [] := by
  have h := crawl_catalog_drops_empty_ids
  refine ⟨h.1 demoPages 1 3 [⟨"a", "A"⟩, ⟨"b", "B"⟩] (by rfl) ⟨"a", "A"⟩ (by simp), ?_⟩
  exact h.2 demoEmptySlugPages 1 5 (by decide) (by decide)

theorem crawlLoop_error_cases (fetch : Nat → Except String (List (String × String))) :
    ∀ (fuel p : Nat) (seen : List String) (out : List CatEntry) (e : String),
      crawlLoop fetch p fuel seen out = .error e →
      ∃ q, p ≤ q ∧ q < p + fuel ∧ fetch q = .error e := by
  intro fuel
  induction fuel with
  | zero => intro p seen out e h; simp [crawlLoop] at h
  | succ fuel ih =>
    intro p seen out e h
    simp only [crawlLoop] at h
    cases hf : fetch p with
    | error e' =>
      rw [hf] at h
      injection h with h
      exact ⟨p, Nat.le_refl p, by omega, by rw [hf, h]⟩
    | ok items =>
      rw [hf] at h
      simp only [] at h
      by_cases hempty : items = []
      · rw [if_pos hempty] at h
        simp at h
      · rw [if_neg hempty] at h
        by_cases hadd : (processPage seen out items).2.2 = 0
        · rw [if_pos hadd] at h
          simp at h
        · rw [if_neg hadd] at h
          obtain ⟨q, h1, h2, h3⟩ := ih (p + 1) _ _ e h
          exact ⟨q, by omega, by omega, h3⟩

theorem fetchPageLoop_all_fail (httpGet : String → Except String String)
    (findall : String → List (String × String)) (unescape : String → String)
    (page : Nat) :
    ∀ (bases : List String) (last_err : Option String) (bLast eLast : String),
      (∀ b ∈ bases, ∃ err, httpGet (browseUrl b page) = .error err) →
      bases.getLast? = some bLast →
      httpGet (browseUrl bLast page) = .error eLast →
      fetchPageLoop httpGet findall unescape page bases last_err =
        .error ("No se pudo cargar browse page=" ++ toString page ++ ". Último error: "
          ++ eLast) := by
  intro bases
  induction bases with
  | nil => intro last_err bLast eLast _ hlast _; simp at hlast
  | cons b rest ih =>
    intro last_err bLast eLast hall hlast hLastErr
    obtain ⟨err, herr⟩ := hall b (List.mem_cons_self _ _)
    cases hrest : rest with
    | nil =>
      subst hrest
      have hb : b = bLast := by simpa using hlast
      have heq : err = eLast := by
        rw [← hb, herr] at hLastErr
        injection hLastErr
      simp only [fetchPageLoop]
      rw [herr]
      simp [fetchPageLoop, pyFormatExc, heq]
    | cons r rs =>
      subst hrest
      simp only [fetchPageLoop]
      rw [herr]
      exact ih (some err) bLast eLast
        (fun b' hb' => hall b' (List.mem_cons_of_mem _ hb'))
        (by simpa using hlast) hLastErr

/-- C8: a page fetch failure aborts the whole crawl, whatever entries had
been accumulated (any `seen`/`out`), propagating that page's error; when
every candidate host fails for one page, `fetch_catalog_page` fails carrying
the last host's underlying error; and a crawl that fails does so with
exactly the error of one attempted page — it never returns partial data. -/
theorem crawl_abort_on_page_failure :
    (∀ (fetch : Nat → Except String (List (String × String))) (p fuel : Nat)
       (seen : List String) (out : List CatEntry) (e : String),
       0 < fuel → fetch p = .error e → crawlLoop fetch p fuel seen out = .error e) ∧
    (∀ (httpGet : String → Except String String)
       (findall : String → List (String × String)) (unescape : String → String)
       (base_candidates : List String) (page : Nat) (bLast eLast : String),
       (∀ b ∈ base_candidates, ∃ err, httpGet (browseUrl b page) = .error err) →
       base_candidates.getLast? = some bLast →
       httpGet (browseUrl bLast page) = .error eLast →
       fetch_catalog_page httpGet findall unescape base_candidates page none =
         .error ("No se pudo cargar browse page=" ++ toString page ++ ". Último error: "
           ++ eLast)) ∧
    (∀ (fetch : Nat → Except String (List (String × String)))
       (start_page max_pages : Nat) (e : String),
       crawl_catalog fetch start_page max_pages = .error e →
       ∃ p, start_page ≤ p ∧ p < start_page + max_pages ∧ fetch p = .error e) := by
  refine ⟨?_, ?_, ?_⟩
  · intro fetch p fuel seen out e hfuel herr
    cases fuel with
    | zero => omega
    | succ fuel =>
      simp only [crawlLoop]
      rw [herr]
  · intro httpGet findall unescape base_candidates page bLast eLast hall hlast herr
    exact fetchPageLoop_all_fail httpGet findall unescape page base_candidates none
      bLast eLast hall hlast herr
  · intro fetch start_page max_pages e h
    exact crawlLoop_error_cases fetch max_pages start_page [] [] e h

theorem crawl_abort_on_page_failure_witness :
    crawlLoop (fun _ => .error "boom") 1 2 [] [⟨"a", "A"⟩] = .error "boom" ∧
    fetch_catalog_page (fun _ => .error "down") (fun _ => []) (fun s => s)
      ["h1", "h2"] 3 none =
      .error ("No se pudo cargar browse page=" ++ toString 3 ++ ". Último error: "
        ++ "down") := by
  have h := crawl_abort_on_page_failure
  exact ⟨h.1 _ 1 2 [] [⟨"a", "A"⟩] "boom" (by decide) rfl,
    h.2.1 _ _ _ ["h1", "h2"] 3 "h2" "down" (fun b _ => ⟨"down", rfl⟩) (by rfl) rfl⟩

/-! ### C4: `get_cached_catalog` decision order -/

/-- C4: the three-way decision of `get_cached_catalog`: (1) not forcing,
memory non-empty and fresher than TTL returns memory and changes nothing;
(2) not forcing with empty memory and a non-empty disk snapshot adopts the
snapshot, stamps the refresh time to now (not the snapshot's write time) and
writes nothing; (3) in every other case (forcing, or stale memory, or empty
memory with an empty snapshot) the crawl result replaces memory wholesale,
the snapshot is written and the refresh time is stamped. -/
theorem get_cached_catalog_decision {α : Type} (crawlResult diskItems : List α)
    (ttl now : Int) (force_refresh : Bool) (st : CacheState α) :
    (force_refresh = false → st.cache ≠ [] → now - st.ts < ttl →
      get_cached_catalog crawlResult diskItems ttl now force_refresh st =
        ⟨st.cache, st, false⟩) ∧
    (force_refresh = false → st.cache = [] → diskItems ≠ [] →
      get_cached_catalog crawlResult diskItems ttl now force_refresh st =
        ⟨diskItems, ⟨diskItems, now⟩, false⟩) ∧
    ((force_refresh = true ∨ (st.cache ≠ [] ∧ ¬ now - st.ts < ttl) ∨
        (st.cache = [] ∧ diskItems = [])) →
      get_cached_catalog crawlResult diskItems ttl now force_refresh st =
        ⟨crawlResult, ⟨crawlResult, now⟩, true⟩) := by
  refine ⟨?_, ?_, ?_⟩
  · intro hf hc hfresh
    rw [get_cached_catalog, if_pos]
    simp [hf, hfresh, List.isEmpty_iff, hc]
  · intro hf hc hd
    rw [get_cached_catalog, if_neg, if_pos]
    · simp [hf, List.isEmpty_iff, hc, hd]
    · simp [hf, List.isEmpty_iff, hc]
  · intro hcase
    rcases hcase with hf | ⟨hc, hstale⟩ | ⟨hc, hd⟩
    · rw [get_cached_catalog, if_neg (by simp [hf]), if_neg (by simp [hf])]
    · rw [get_cached_catalog, if_neg (by simp [hstale]), if_neg (by simp [List.isEmpty_iff, hc])]
    · rw [get_cached_catalog, if_neg (by simp [List.isEmpty_iff, hc]),
        if_neg (by simp [List.isEmpty_iff, hd])]

theorem get_cached_catalog_decision_witness :
    get_cached_catalog (α := CatEntry) [⟨"c", "C"⟩] [⟨"d", "D"⟩] 100 50 false
      ⟨[⟨"m", "M"⟩], 10⟩ = ⟨[⟨"m", "M"⟩], ⟨[⟨"m", "M"⟩], 10⟩, false⟩ ∧
    get_cached_catalog (α := CatEntry) [⟨"c", "C"⟩] [⟨"d", "D"⟩] 100 50 false
      ⟨[], 10⟩ = ⟨[⟨"d", "D"⟩], ⟨[⟨"d", "D"⟩], 50⟩, false⟩ ∧
    get_cached_catalog (α := CatEntry) [⟨"c", "C"⟩] [⟨"d", "D"⟩] 100 50 true
      ⟨[⟨"m", "M"⟩], 10⟩ = ⟨[⟨"c", "C"⟩], ⟨[⟨"c", "C"⟩], 50⟩, true⟩ := by
  refine ⟨?_, ?_, ?_⟩
  · exact (get_cached_catalog_decision (α := CatEntry) [⟨"c", "C"⟩] [⟨"d", "D"⟩] 100 50
      false ⟨[⟨"m", "M"⟩], 10⟩).1 rfl (by decide) (by decide)
  · exact (get_cached_catalog_decision (α := CatEntry) [⟨"c", "C"⟩] [⟨"d", "D"⟩] 100 50
      false ⟨[], 10⟩).2.1 rfl rfl (by decide)
  · exact (get_cached_catalog_decision (α := CatEntry) [⟨"c", "C"⟩] [⟨"d", "D"⟩] 100 50
      true ⟨[⟨"m", "M"⟩], 10⟩).2.2 (Or.inl rfl)

/-! ### C5: snapshot round-trip -/

theorem load_save_roundtrip (items : List CatEntry) :
    _load_catalog_from_disk (some (_save_catalog_to_disk items)) =
      items.map entryJson := by
  rw [_save_catalog_to_disk, _load_catalog_from_disk]
  exact List.filter_eq_self.mpr (by
    intro x hx
    obtain ⟨e, _, he⟩ := List.mem_map.mp hx
    rw [← he]
    rfl)

/-- C5: saving a non-empty catalog of string-id/string-title entries to the
durable snapshot and cold-starting (`memory empty, force_refresh = false`)
yields a catalog with exactly the same set of `(id, title)` pairs (here in
fact the same sequence). -/
theorem catalog_snapshot_roundtrip (items : List CatEntry) (hne : items ≠ [])
    (st : CacheState Json) (hcold : st.cache = []) (crawlResult : List Json)
    (ttl now : Int) :
    ∀ p, p ∈ ((get_cached_catalog crawlResult
        (_load_catalog_from_disk (some (_save_catalog_to_disk items)))
        ttl now false st).result.map jsonPair) ↔
      p ∈ items.map (fun e => (some (Json.str e.id), some (Json.str e.title))) := by
  intro p
  have hload := load_save_roundtrip items
  have hres : (get_cached_catalog crawlResult
      (_load_catalog_from_disk (some (_save_catalog_to_disk items)))
      ttl now false st).result = items.map entryJson := by
    rw [hload, get_cached_catalog, if_neg (by simp [List.isEmpty_iff, hcold]),
      if_pos (by simp [List.isEmpty_iff, hcold, hne])]
  rw [hres, List.map_map]
  have hcomp : (jsonPair ∘ entryJson) =
      fun e : CatEntry => (some (Json.str e.id), some (Json.str e.title)) := rfl
  rw [hcomp]

theorem catalog_snapshot_roundtrip_witness :
    (some (Json.str "a"), some (Json.str "A")) ∈
      ((get_cached_catalog ([] : List Json)
        (_load_catalog_from_disk (some (_save_catalog_to_disk [⟨"a", "A"⟩])))
        100 50 false ⟨[], 0⟩).result.map jsonPair) := by
  exact (catalog_snapshot_roundtrip [⟨"a", "A"⟩] (by decide) ⟨[], 0⟩ rfl [] 100 50
    (some (Json.str "a"), some (Json.str "A"))).mpr (by simp)

/-! ### C9: the memoized slug set survives refreshes -/

/-- C9: once `get_slug_set` has memoized a slug set, every later call
returns that same set and leaves the state unchanged, and a refresh of the
catalog cache — forced or not, with any crawl/disk data, even one that
replaces the entries wholesale — leaves the memo untouched. -/
theorem slug_set_memo_stable (s : Finset String) (st : AppState)
    (hmemo : st.slugMemo = some s)
    (crawlResult diskItems crawlResult2 diskItems2 : List CatEntry)
    (ttl now ttl2 now2 : Int) (force_refresh : Bool) :
    ((refresh_catalog crawlResult diskItems ttl now force_refresh st).2.slugMemo
      = some s) ∧
    (get_slug_set crawlResult2 diskItems2 ttl2 now2
      (refresh_catalog crawlResult diskItems ttl now force_refresh st).2).1 = s ∧
    (get_slug_set crawlResult2 diskItems2 ttl2 now2
      (refresh_catalog crawlResult diskItems ttl now force_refresh st).2).2 =
      (refresh_catalog crawlResult diskItems ttl now force_refresh st).2 := by
  have hmemo' : (refresh_catalog crawlResult diskItems ttl now force_refresh st).2.slugMemo
      = some s := hmemo
  refine ⟨hmemo', ?_, ?_⟩ <;> rw [get_slug_set, hmemo']

theorem slug_set_memo_stable_witness :
    (get_slug_set [] [] 100 99
      (refresh_catalog [⟨"new", "N"⟩] [] 100 60 true
        ⟨⟨[⟨"old", "O"⟩], 0⟩, some {"old"}⟩).2).1 = {"old"} ∧
    idSet (refresh_catalog [⟨"new", "N"⟩] [] 100 60 true
        ⟨⟨[⟨"old", "O"⟩], 0⟩, some {"old"}⟩).2.cacheState.cache ≠ ({"old"} : Finset String) := by
  refine ⟨(slug_set_memo_stable {"old"} ⟨⟨[⟨"old", "O"⟩], 0⟩, some {"old"}⟩ rfl
    [⟨"new", "N"⟩] [] [] [] 100 60 100 99 true).2.1, ?_⟩
  decide

/-! ### C6: `extract_videos_dict` fallback -/

/-- C6: when the videos block is absent the extraction fails immediately and
its result does not depend on the parser at all (no parse attempt); when the
block is found, a successful strict parse of the entity-decoded capture is
returned as-is, and on a strict-parse failure the result is exactly the
parse of the newline/carriage-return-collapsed text — one fallback pass,
whose failure is the operation's failure. -/
theorem extract_videos_dict_fallback :
    (∀ (capture : String → Option String) (page_html : String),
       capture page_html = none →
       ∀ (unescape : String → String) (loads loads2 : String → Except String RawVideos),
         extract_videos_dict capture unescape loads page_html =
           .error "No encontré \x27var videos = \x7b...\x7d;\x27 en la página." ∧
         extract_videos_dict capture unescape loads page_html =
           extract_videos_dict capture unescape loads2 page_html) ∧
    (∀ (capture : String → Option String) (unescape : String → String)
       (loads : String → Except String RawVideos) (page_html g : String),
       capture page_html = some g →
       (∀ v, loads (unescape g) = .ok v →
          extract_videos_dict capture unescape loads page_html = .ok v) ∧
       (∀ e₁, loads (unescape g) = .error e₁ →
          extract_videos_dict capture unescape loads page_html =
            loads (cleanNl (unescape g)) ∧
          ∀ e₂, loads (cleanNl (unescape g)) = .error e₂ →
            extract_videos_dict capture unescape loads page_html = .error e₂)) := by
  constructor
  · intro capture page_html hnone unescape loads loads2
    constructor <;> simp [extract_videos_dict, hnone]
  · intro capture unescape loads page_html g hsome
    constructor
    · intro v hok
      simp [extract_videos_dict, hsome, hok]
    · intro e₁ herr
      have hfall : extract_videos_dict capture unescape loads page_html =
          loads (cleanNl (unescape g)) := by
        simp [extract_videos_dict, hsome, herr]
      refine ⟨hfall, ?_⟩
      intro e₂ herr2
      rw [hfall, herr2]

theorem extract_videos_dict_fallback_witness :
    extract_videos_dict (fun _ => some "x\ny") (fun s => s)
      (fun s => if s = "x y" then .ok ⟨none, none⟩ else .error ("bad " ++ s)) "page" =
      .ok ⟨none, none⟩ := by
  have h := (extract_videos_dict_fallback.2 (fun _ => some "x\ny") (fun s => s)
    (fun s => if s = "x y" then .ok ⟨none, none⟩ else .error ("bad " ++ s))
    "page" "x\ny" rfl).2 ("bad " ++ "x\ny") (by rfl)
  rw [h.1]
  rfl

/-! ### C7: digit-slug validation before any fetch -/

/-- C7: an all-digit `anime_id` makes the video-links endpoint fail with the
400 validation error for every possible behaviour of the network and
extraction oracles (in particular, before any fetch can happen), and a
non-all-digit `anime_id` never produces that validation error. -/
theorem videos_endpoint_digit_validation :
    (∀ (anime_id : String), pyIsDigit anime_id = true →
       ∀ (pageFetch : String → Nat → Except String (String × String))
         (capture : String → Option String) (unescape : String → String)
         (loads : String → Except String RawVideos)
         (animeRx episodeRx epnumRx : String → Option String)
         (episode_id : Nat) (only : Option String) (prefer_best : Bool),
         get_episode_videos pageFetch capture unescape loads animeRx episodeRx epnumRx
           anime_id episode_id only prefer_best = .error ⟨400, invalidAnimeIdDetail⟩) ∧
    (∀ (anime_id : String), pyIsDigit anime_id = false →
       ∀ (pageFetch : String → Nat → Except String (String × String))
         (capture : String → Option String) (unescape : String → String)
         (loads : String → Except String RawVideos)
         (animeRx episodeRx epnumRx : String → Option String)
         (episode_id : Nat) (only : Option String) (prefer_best : Bool),
         get_episode_videos pageFetch capture unescape loads animeRx episodeRx epnumRx
           anime_id episode_id only prefer_best ≠ .error ⟨400, invalidAnimeIdDetail⟩) := by
  constructor
  · intro anime_id hd pageFetch capture unescape loads aRx eRx nRx episode_id only pb
    simp [get_episode_videos, hd]
  · intro anime_id hd pageFetch capture unescape loads aRx eRx nRx episode_id only pb
    rw [get_episode_videos, if_neg (by simp [hd])]
    cases hf : pageFetch anime_id episode_id with
    | error e => simp [invalidAnimeIdDetail]
    | ok pr =>
      obtain ⟨page_html, page_url⟩ := pr
      simp only []
      cases hx : extract_videos_dict capture unescape loads page_html with
      | error e => simp [invalidAnimeIdDetail]
      | ok videos =>
        simp only []
        by_cases hitems : flatten_videos videos = []
        · rw [if_pos hitems]
          simp [invalidAnimeIdDetail]
        · rw [if_neg hitems]
          by_cases honly : pyTruthy only = true
          · rw [if_pos honly]
            by_cases hfil : (flatten_videos videos).filter
                (fun it => it.server == pyLower (pyStrip (orEmpty only))) = []
            · rw [if_pos hfil]
              simp [invalidAnimeIdDetail]
            · rw [if_neg hfil]
              simp
          · rw [if_neg honly]
            simp

theorem videos_endpoint_digit_validation_witness :
    get_episode_videos (fun _ _ => .error "net") (fun _ => none) (fun s => s)
      (fun _ => .error "parse") (fun _ => none) (fun _ => none) (fun _ => none)
      "123" 1 none false = .error ⟨400, invalidAnimeIdDetail⟩ ∧
    get_episode_videos (fun _ _ => .error "net") (fun _ => none) (fun s => s)
      (fun _ => .error "parse") (fun _ => none) (fun _ => none) (fun _ => none)
      "dragon-ball" 1 none false ≠ .error ⟨400, invalidAnimeIdDetail⟩ := by
  have h := videos_endpoint_digit_validation
  exact ⟨h.1 "123" (by decide) _ _ _ _ _ _ _ 1 none false,
    h.2 "dragon-ball" (by decide) _ _ _ _ _ _ _ 1 none false⟩

end ApiSw
